import Mathlib

/-!
Verification of the result-aggregation and response-normalization pipeline of a
browser-based plagiarism checker.  The definitions below are a shallow
embedding of `src/services/geminiService.ts` (JSON extraction, response
normalization, source deduplication, pair generation, aggregation) and of the
summary computation in the results-display component.  JavaScript machine
numbers are idealized as `ℚ`; the asynchronous provider is modelled as an
explicit function argument, and `Promise.all` as a function of the list of
call outcomes together with a completion schedule.
-/

/-! ### Character-level helpers (JavaScript `\s`, braces, substring search) -/

/-- The opening-brace character, written via its code point. -/
def lbrace : Char := Char.ofNat 123

/-- The closing-brace character, written via its code point. -/
def rbrace : Char := Char.ofNat 125

/-- JavaScript's `\s` character class (the ASCII part plus NBSP and BOM,
which are the cases relevant to provider responses). -/
def isJsWs (c : Char) : Bool :=
  c = ' ' || c = '\t' || c = '\n' || c = '\r' ||
  c = Char.ofNat 11 || c = Char.ofNat 12 || c = Char.ofNat 160 || c = Char.ofNat 65279

/-- Drop trailing JS whitespace (the effect of the greedy `\s*` before the
closing fence in the extraction regex). -/
def dropTrailingWs (cs : List Char) : List Char :=
  (cs.reverse.dropWhile isJsWs).reverse

/-- Index of the first occurrence of `pat` as a contiguous substring. -/
def findSubstr (pat : List Char) : List Char → Option Nat
  | [] => if pat.isEmpty then some 0 else none
  | c :: rest =>
    if pat.isPrefixOf (c :: rest) then some 0
    else (findSubstr pat rest).map (· + 1)

/-- Index of the last occurrence of the character `c`. -/
def lastIdxOf (c : Char) : List Char → Option Nat
  | [] => none
  | a :: rest =>
    match lastIdxOf c rest with
    | some k => some (k + 1)
    | none => if a = c then some 0 else none

/-- The literal opening marker of a fenced JSON block in the extraction regex. -/
def fenceOpen : List Char := "```json".toList

/-- The literal closing marker of a fenced block. -/
def fenceClose : List Char := "```".toList

/-- First alternative of the regex
`/```json\s*([\s\S]*?)\s*```|({[\s\S]*})/` tried at the current position:
if the suffix starts with ```` ```json ````, the capture is the text up to the
first subsequent ```` ``` ````, with surrounding JS whitespace stripped (the
greedy `\s*`s around the lazy group). -/
def fenceContentAt (cs : List Char) : Option (List Char) :=
  if fenceOpen.isPrefixOf cs then
    let r := (cs.drop 7).dropWhile isJsWs
    match findSubstr fenceClose r with
    | some q => some (dropTrailingWs (r.take q))
    | none => none
  else none

/-- Second alternative of the regex tried at the current position: a literal
`{` followed by a greedy `[\s\S]*`, i.e. the capture runs to the **last** `}`
in the remaining text. -/
def braceSpanAt : List Char → Option (List Char)
  | [] => none
  | a :: rest =>
    if a = lbrace then
      (lastIdxOf rbrace rest).map (fun k => lbrace :: rest.take (k + 1))
    else none

/-- One attempt of the whole alternation at a fixed position: the fenced
alternative is tried before the brace alternative. -/
def candAt (cs : List Char) : Option (List Char) :=
  match fenceContentAt cs with
  | some s => some s
  | none => braceSpanAt cs

/-- `String.prototype.match` with the extraction regex: scan positions left to
right and return the capture of the first position where an alternative
matches. -/
def findCandidate : List Char → Option (List Char)
  | [] => none
  | c :: rest =>
    match candAt (c :: rest) with
    | some s => some s
    | none => findCandidate rest

/-- `jsonString.replace(/,\s*([}\]])/g, '$1')`: every comma that is followed
(after JS whitespace) by `}` or `]` is removed together with that whitespace;
scanning resumes after the bracket. -/
def stripCommasGo : Nat → List Char → List Char
  | 0, cs => cs
  | _ + 1, [] => []
  | fuel + 1, c :: rest =>
    if c = ',' then
      match rest.dropWhile isJsWs with
      | b :: r2 =>
        if b = rbrace ∨ b = ']' then b :: stripCommasGo fuel r2
        else c :: stripCommasGo fuel rest
      | [] => c :: stripCommasGo fuel rest
    else c :: stripCommasGo fuel rest

/-- Trailing-comma repair applied before `JSON.parse`. -/
def stripTrailingCommas (cs : List Char) : List Char :=
  stripCommasGo cs.length cs

/-- JavaScript `String.prototype.trim` (on our character-class model). -/
def jsTrim (cs : List Char) : List Char :=
  dropTrailingWs (cs.dropWhile isJsWs)

/-! ### A model of JSON values and of `JSON.parse` -/

/-- JSON values as produced by `JSON.parse`, with numbers idealized as `ℚ`. -/
inductive Json where
  | null : Json
  | bool : Bool → Json
  | num : ℚ → Json
  | str : String → Json
  | arr : List Json → Json
  | obj : List (String × Json) → Json
deriving Repr

/-- JSON source whitespace (`ws` in the JSON grammar: space, tab, LF, CR). -/
def isJsonWs (c : Char) : Bool :=
  c = ' ' || c = '\t' || c = '\n' || c = '\r'

/-- Skip JSON whitespace. -/
def skipWs (cs : List Char) : List Char :=
  cs.dropWhile isJsonWs

/-- Value of a single-character escape inside a JSON string literal. -/
def escChar (e : Char) : Option Char :=
  if e = '"' then some '"'
  else if e = '\\' then some '\\'
  else if e = '/' then some '/'
  else if e = 'b' then some (Char.ofNat 8)
  else if e = 'f' then some (Char.ofNat 12)
  else if e = 'n' then some '\n'
  else if e = 'r' then some '\r'
  else if e = 't' then some '\t'
  else none

/-- Value of a hexadecimal digit. -/
def hexVal (c : Char) : Option Nat :=
  if c.isDigit then some (c.toNat - 48)
  else if 'a' ≤ c ∧ c ≤ 'f' then some (c.toNat - 87)
  else if 'A' ≤ c ∧ c ≤ 'F' then some (c.toNat - 55)
  else none

/-- Body of a JSON string literal (after the opening quote), returning the
decoded string and the rest of the input. Raw control characters are
rejected, as in `JSON.parse`. -/
def parseStringBody (acc : List Char) : List Char → Option (String × List Char)
  | [] => none
  | c :: rest =>
    if c = '"' then some (String.mk acc.reverse, rest)
    else if c = '\\' then
      match rest with
      | [] => none
      | e :: rest2 =>
        if e = 'u' then
          match rest2 with
          | h1 :: h2 :: h3 :: h4 :: r2 =>
            match hexVal h1, hexVal h2, hexVal h3, hexVal h4 with
            | some a, some b, some c2, some d =>
              parseStringBody (Char.ofNat (((a * 16 + b) * 16 + c2) * 16 + d) :: acc) r2
            | _, _, _, _ => none
          | _ => none
        else
          match escChar e with
          | some ec => parseStringBody (ec :: acc) rest2
          | none => none
    else if c.toNat < 32 then none
    else parseStringBody (c :: acc) rest

/-- Digit run of the input. -/
def digitSpan (cs : List Char) : List Char × List Char :=
  (cs.takeWhile Char.isDigit, cs.dropWhile Char.isDigit)

/-- Integer part of a JSON number: a single `0`, or a nonzero digit followed
by digits (JSON forbids redundant leading zeros). -/
def parseIntPart : List Char → Option (List Char × List Char)
  | [] => none
  | c :: rest =>
    if c = '0' then some ([c], rest)
    else if c.isDigit then some (c :: rest.takeWhile Char.isDigit, rest.dropWhile Char.isDigit)
    else none

/-- Fractional part: `.` followed by at least one digit, or nothing. -/
def parseFrac : List Char → Option (List Char × List Char)
  | c :: rest =>
    if c = '.' then
      match digitSpan rest with
      | ([], _) => none
      | (ds, r) => some (ds, r)
    else some ([], c :: rest)
  | [] => some ([], [])

/-- Exponent part: `e`/`E`, optional sign, at least one digit, or nothing.
Returns (exponent is negative, exponent digits, rest). -/
def parseExpPart : List Char → Option (Bool × List Char × List Char)
  | [] => some (false, [], [])
  | c :: rest =>
    if c = 'e' ∨ c = 'E' then
      match rest with
      | [] => none
      | s :: r2 =>
        if s = '+' then
          match digitSpan r2 with
          | ([], _) => none
          | (ds, r) => some (false, ds, r)
        else if s = '-' then
          match digitSpan r2 with
          | ([], _) => none
          | (ds, r) => some (true, ds, r)
        else
          match digitSpan (s :: r2) with
          | ([], _) => none
          | (ds, r) => some (false, ds, r)
    else some (false, [], c :: rest)

/-- Numeric value of a digit list. -/
def digitsToNat (ds : List Char) : Nat :=
  ds.foldl (fun n c => 10 * n + (c.toNat - 48)) 0

/-- Rational value of a parsed JSON number.  An integer literal (no fraction,
no exponent) is built directly from its digits; the case with fraction or
exponent digits scales the mantissa accordingly. -/
def jsonNumVal (neg : Bool) (intDs fracDs : List Char) (negExp : Bool) (expDs : List Char) : ℚ :=
  if fracDs.isEmpty && expDs.isEmpty then
    let v : ℚ := (digitsToNat intDs : ℕ)
    if neg then -v else v
  else
    let mant : ℚ := (digitsToNat (intDs ++ fracDs) : ℕ)
    let e := digitsToNat expDs
    let base := mant / (10 : ℚ) ^ fracDs.length
    let scaled := if negExp then base / (10 : ℚ) ^ e else base * (10 : ℚ) ^ e
    if neg then -scaled else scaled

/-- A JSON number starting at the current position. -/
def parseNumber (cs : List Char) : Option (Json × List Char) :=
  let signSplit : Bool × List Char :=
    match cs with
    | c :: t => if c = '-' then (true, t) else (false, cs)
    | [] => (false, cs)
  match parseIntPart signSplit.2 with
  | none => none
  | some (intDs, r1) =>
    match parseFrac r1 with
    | none => none
    | some (fracDs, r2) =>
      match parseExpPart r2 with
      | none => none
      | some (negE, expDs, r3) =>
        some (.num (jsonNumVal signSplit.1 intDs fracDs negE expDs), r3)

mutual

/-- A JSON value (fuel-indexed recursive-descent parser mirroring
`JSON.parse`). -/
def parseValueF : Nat → List Char → Option (Json × List Char)
  | 0, _ => none
  | fuel + 1, cs =>
    match skipWs cs with
    | [] => none
    | c :: rest =>
      if c = lbrace then
        match skipWs rest with
        | b :: rest2 =>
          if b = rbrace then some (.obj [], rest2)
          else (parseMembersF fuel (b :: rest2)).map (fun p => (.obj p.1, p.2))
        | [] => none
      else if c = '[' then
        match skipWs rest with
        | b :: rest2 =>
          if b = ']' then some (.arr [], rest2)
          else (parseItemsF fuel (b :: rest2)).map (fun p => (.arr p.1, p.2))
        | [] => none
      else if c = '"' then
        (parseStringBody [] rest).map (fun p => (.str p.1, p.2))
      else if c = 't' then
        if "true".toList.isPrefixOf (c :: rest) then some (.bool true, (c :: rest).drop 4) else none
      else if c = 'f' then
        if "false".toList.isPrefixOf (c :: rest) then some (.bool false, (c :: rest).drop 5) else none
      else if c = 'n' then
        if "null".toList.isPrefixOf (c :: rest) then some (.null, (c :: rest).drop 4) else none
      else if c = '-' ∨ c.isDigit then
        parseNumber (c :: rest)
      else none

/-- Members of a JSON object after the opening brace (nonempty case). -/
def parseMembersF : Nat → List Char → Option (List (String × Json) × List Char)
  | 0, _ => none
  | fuel + 1, cs =>
    match skipWs cs with
    | [] => none
    | c :: rest =>
      if c = '"' then
        match parseStringBody [] rest with
        | none => none
        | some (k, r1) =>
          match skipWs r1 with
          | [] => none
          | d :: r2 =>
            if d = ':' then
              match parseValueF fuel r2 with
              | none => none
              | some (v, r3) =>
                match skipWs r3 with
                | [] => none
                | s :: r4 =>
                  if s = ',' then (parseMembersF fuel r4).map (fun p => ((k, v) :: p.1, p.2))
                  else if s = rbrace then some ([(k, v)], r4)
                  else none
            else none
      else none

/-- Items of a JSON array after the opening bracket (nonempty case). -/
def parseItemsF : Nat → List Char → Option (List Json × List Char)
  | 0, _ => none
  | fuel + 1, cs =>
    match parseValueF fuel cs with
    | none => none
    | some (v, r1) =>
      match skipWs r1 with
      | [] => none
      | s :: r2 =>
        if s = ',' then (parseItemsF fuel r2).map (fun p => (v :: p.1, p.2))
        else if s = ']' then some ([v], r2)
        else none

end

/-- `JSON.parse` on a character list: one value, then only whitespace. -/
def parseJsonList (cs : List Char) : Option Json :=
  match parseValueF (cs.length + 1) cs with
  | some (v, rest) => if skipWs rest = [] then some v else none
  | none => none

/-- `JSON.parse` on a string. -/
def parseJson (s : String) : Option Json :=
  parseJsonList s.data

/-! ### `extractJsonFromText` -/

/-- The two distinct error outcomes of `extractJsonFromText`. -/
inductive ExtractError where
  | nonJsonResponse : ExtractError
  | malformedJson : ExtractError
deriving DecidableEq, Repr

/-- `extractJsonFromText` from `geminiService.ts`: run the extraction regex;
with no match, or a match whose fenced capture is the empty string (so that
`match[1] || match[2]` is falsy), throw the non-JSON-response error; otherwise
strip trailing commas and `JSON.parse`, a failure there being the distinct
malformed-JSON error. -/
def extractJsonFromText (text : String) : Except ExtractError Json :=
  match findCandidate text.data with
  | none => .error .nonJsonResponse
  | some cand =>
    if cand = [] then .error .nonJsonResponse
    else
      match parseJsonList (stripTrailingCommas cand) with
      | some v => .ok v
      | none => .error .malformedJson

/-! ### Data model (`types.ts`) and the grounding metadata -/

/-- `DocumentContent` from `types.ts`. -/
structure DocumentContent where
  name : String
  content : String
  mimeType : String
deriving DecidableEq, Repr

/-- A matched sentence of an online result. -/
structure OnlineMatchedSentence where
  sentence : String
deriving DecidableEq, Repr

/-- A web source citation. -/
structure Source where
  uri : String
  title : String
deriving DecidableEq, Repr

/-- The `web` payload of a grounding chunk; both fields may be absent. -/
structure WebInfo where
  uri : Option String
  title : Option String
deriving DecidableEq, Repr

/-- A grounding chunk of the provider response metadata. -/
structure GroundingChunk where
  web : Option WebInfo
deriving DecidableEq, Repr

/-- `OnlineComparisonResult` from `types.ts`. -/
structure OnlineComparisonResult where
  file1 : String
  similarity : ℚ
  matched_sentences : List OnlineMatchedSentence
  sources : List Source
deriving DecidableEq, Repr

/-- `ComparisonResult` from `types.ts`.  The pairwise path assigns
`parsed.similarity` and `parsed.matched_sentences` without any validation, so
the fields here hold the raw JSON field contents (`none` models a missing
field, JavaScript `undefined`). -/
structure ComparisonResult where
  file1 : String
  file2 : String
  similarity : Option Json
  matched_sentences : Option Json

/-- One element of the result list returned by `checkPlagiarism`
(`ComparisonResult | OnlineComparisonResult`). -/
inductive AnalysisResult where
  | pairwise : ComparisonResult → AnalysisResult
  | online : OnlineComparisonResult → AnalysisResult

/-! ### Field access on parsed JSON -/

/-- JavaScript property lookup on an object built by `JSON.parse`: a later
duplicate key overwrites an earlier one. -/
def lookupLast (kvs : List (String × Json)) (k : String) : Option Json :=
  kvs.foldl (fun acc kv => if kv.1 = k then some kv.2 else acc) none

/-- Property access `parsed.f`: `none` for a missing property or a
non-object. -/
def getField : Json → String → Option Json
  | .obj kvs, k => lookupLast kvs k
  | _, _ => none

/-! ### Source mapping and deduplication (`analyzeContentOnline`) -/

/-- `chunk => ({uri: chunk.web?.uri || '', title: chunk.web?.title || 'Untitled'})`. -/
def chunkToSource (c : GroundingChunk) : Source :=
  { uri :=
      match c.web with
      | some w => w.uri.getD ""
      | none => ""
  , title :=
      match c.web with
      | some w =>
        match w.title with
        | some t => if t = "" then "Untitled" else t
        | none => "Untitled"
      | none => "Untitled" }

/-- `Map.prototype.set` on an insertion-ordered association list: an existing
key keeps its position but its value is replaced; a new key is appended. -/
def mapInsert : List (String × Source) → String → Source → List (String × Source)
  | [], k, v => [(k, v)]
  | (k', v') :: rest, k, v =>
    if k' = k then (k', v) :: rest else (k', v') :: mapInsert rest k v

/-- `new Map(sources.map(item => [item.uri, item]))` as an insertion-ordered
association list. -/
def insertAll (l : List Source) : List (String × Source) :=
  l.foldl (fun m s => mapInsert m s.uri s) []

/-- `Array.from(new Map(...).values())`. -/
def uniqueSources (l : List Source) : List Source :=
  (insertAll l).map Prod.snd

/-- The full source pipeline of `analyzeContentOnline`: map chunks to
sources, drop falsy (empty) URIs, deduplicate by URI through a JS `Map`. -/
def dedupeSources (l : List Source) : List Source :=
  uniqueSources (l.filter (fun s => s.uri != ""))

/-! ### Sentence normalization and the online result (`analyzeContentOnline`) -/

/-- The sentinel produced for an unparseable matched sentence. -/
def errorSentinel : String := "[Error: Could not parse sentence]"

/-- Per-item coercion of `matched_sentences`: a bare string passes through,
an object with a string `sentence` field is unwrapped, anything else becomes
the sentinel. -/
def normalizeSentence (item : Json) : OnlineMatchedSentence :=
  match item with
  | .str s => ⟨s⟩
  | .obj kvs =>
    match lookupLast kvs "sentence" with
    | some (.str s) => ⟨s⟩
    | _ => ⟨errorSentinel⟩
  | _ => ⟨errorSentinel⟩

/-- Error message thrown by `analyzeContentOnline`'s catch block. -/
def onlineFailMessage (docName : String) : String :=
  "Failed to analyze document " ++ docName ++ " against online sources. The API returned an error."

/-- Error message thrown by `analyzePair`'s catch block. -/
def pairFailMessage (name1 name2 : String) : String :=
  "Failed to analyze documents: " ++ name1 ++ " and " ++ name2 ++ ". The API returned an error."

/-- Error message thrown by `extractTextFromDoc`'s catch block. -/
def extractFailMessage (docName apiError : String) : String :=
  "Failed to extract text from file: " ++ docName ++ ". API Error: " ++ apiError

/-- Steps of `analyzeContentOnline` after JSON extraction: validate that
`similarity` is a number and `matched_sentences` an array (else the
unexpected-format throw, converted by the catch block into the per-document
failure message), normalize the sentences and deduplicate the sources. -/
def normalizeParsed (docName : String) (parsed : Json) (chunks : List GroundingChunk) :
    Except String OnlineComparisonResult :=
  match getField parsed "similarity", getField parsed "matched_sentences" with
  | some (.num sim), some (.arr rawSentences) =>
    .ok { file1 := docName
        , similarity := sim
        , matched_sentences := rawSentences.map normalizeSentence
        , sources := dedupeSources (chunks.map chunkToSource) }
  | _, _ => .error (onlineFailMessage docName)

/-! ### The provider boundary and the three analysis calls -/

/-- The external Gemini calls, abstracted: text extraction, the online
(search-grounded) generation returning response text plus grounding chunks,
and the pairwise structured generation returning response text. -/
structure ProviderModel where
  extractText : DocumentContent → Except String String
  onlineResponse : String → Except String (String × List GroundingChunk)
  pairResponse : DocumentContent → DocumentContent → Except String String

/-- `extractTextFromDoc`: a provider failure, or empty/whitespace-only
extracted text, is wrapped into the per-document extraction failure
message. -/
def extractTextFromDoc (P : ProviderModel) (doc : DocumentContent) : Except String String :=
  match P.extractText doc with
  | .error msg => .error (extractFailMessage doc.name msg)
  | .ok t =>
    if jsTrim t.data = [] then
      .error (extractFailMessage doc.name
        ("The API failed to extract any text from the file: " ++ doc.name ++
         ". The file might be empty, password-protected, or in an unsupported format."))
    else .ok t

/-- `analyzePair`: trim the response text, `JSON.parse` it directly, and
assign `parsed.similarity` / `parsed.matched_sentences` without validation;
every failure inside the try block becomes the pair failure message. -/
def analyzePair (P : ProviderModel) (doc1 doc2 : DocumentContent) : Except String ComparisonResult :=
  match P.pairResponse doc1 doc2 with
  | .error _ => .error (pairFailMessage doc1.name doc2.name)
  | .ok raw =>
    match parseJsonList (jsTrim raw.data) with
    | none => .error (pairFailMessage doc1.name doc2.name)
    | some parsed =>
      .ok { file1 := doc1.name
          , file2 := doc2.name
          , similarity := getField parsed "similarity"
          , matched_sentences := getField parsed "matched_sentences" }

/-- `analyzeContentOnline`: call the provider, extract JSON from the response
text, then normalize; every failure inside the try block becomes the
per-document online failure message. -/
def analyzeContentOnline (P : ProviderModel) (docName : String) (textContent : String) :
    Except String OnlineComparisonResult :=
  match P.onlineResponse textContent with
  | .error _ => .error (onlineFailMessage docName)
  | .ok (text, chunks) =>
    match extractJsonFromText text with
    | .error _ => .error (onlineFailMessage docName)
    | .ok parsed => normalizeParsed docName parsed chunks

/-- One online work item of `checkPlagiarism`: extract the document's text,
then analyze it against online sources. -/
def onlineWorkItem (P : ProviderModel) (doc : DocumentContent) :
    Except String OnlineComparisonResult :=
  match extractTextFromDoc P doc with
  | .error e => .error e
  | .ok t => analyzeContentOnline P doc.name t

/-! ### Pair generation and the aggregator (`checkPlagiarism`) -/

/-- Index pairs produced by the nested loops
`for i in 0..n-1, for j in i+1..n-1, push (i, j)`. -/
def pairIndices (n : Nat) : List (Nat × Nat) :=
  (List.range n).flatMap (fun i => (List.range' (i + 1) (n - (i + 1))).map (fun j => (i, j)))

/-- The generated pair list `pairs`, pairing `documents[i]` with
`documents[j]` for each generated index pair. -/
def generatePairs (docs : List DocumentContent) : List (DocumentContent × DocumentContent) :=
  (pairIndices docs.length).filterMap (fun ij =>
    match docs.get? ij.1, docs.get? ij.2 with
    | some a, some b => some (a, b)
    | _, _ => none)

/-- Resolution of `Promise.all` once every outcome is known: the fulfillment
values in input order, or the first (in input order) rejection. -/
def collectResults {ε α : Type} : List (Except ε α) → Except ε (List α)
  | [] => .ok []
  | .ok a :: rest =>
    match collectResults rest with
    | .ok l => .ok (a :: l)
    | .error e => .error e
  | .error e :: _ => .error e

/-- `Promise.all` over concurrently initiated calls: `sched` lists the
indices of the outcomes in completion order; the promise rejects with the
first rejection in completion order, and otherwise fulfills with the values
in input order (not completion order). -/
def promiseAllSched {ε α : Type} (outcomes : List (Except ε α)) (sched : List Nat) :
    Except ε (List α) :=
  match sched.findSome? (fun i =>
    match outcomes.get? i with
    | some (.error e) => some e
    | _ => none) with
  | some e => .error e
  | none => collectResults outcomes

/-- `checkPlagiarism`: online mode maps every document through text
extraction and online analysis; pairwise mode requires at least two
documents, generates all pairs and analyzes each; both modes await all
concurrently initiated calls through `Promise.all`. -/
def checkPlagiarism (P : ProviderModel) (documents : List DocumentContent)
    (isOnlineCheck : Bool) (sched : List Nat) : Except String (List AnalysisResult) :=
  if isOnlineCheck then
    if documents.length < 1 then .ok []
    else
      promiseAllSched
        (documents.map (fun doc => (onlineWorkItem P doc).map AnalysisResult.online)) sched
  else if documents.length < 2 then .ok []
  else
    promiseAllSched
      ((generatePairs documents).map (fun p =>
        (analyzePair P p.1 p.2).map AnalysisResult.pairwise)) sched

/-! ### Summary computation (`ResultsDisplay`) -/

/-- The one field of a result row the summary reads. -/
structure DisplayRow where
  similarity : ℚ
deriving DecidableEq, Repr

/-- `results.reduce((acc, curr) => acc + curr.similarity, 0)`. -/
def totalSimilarity (results : List DisplayRow) : ℚ :=
  results.foldl (fun acc curr => acc + curr.similarity) 0

/-- `results.length > 0 ? totalSimilarity / results.length : 0`. -/
def averageSimilarity (results : List DisplayRow) : ℚ :=
  if results.length > 0 then totalSimilarity results / results.length else 0

/-! ### Specification-side helper notions -/

/-- Strict lexicographic order on index pairs. -/
def pairLexLt (p q : Nat × Nat) : Prop :=
  p.1 < q.1 ∨ (p.1 = q.1 ∧ p.2 < q.2)

instance : DecidableRel pairLexLt := fun p q => by
  unfold pairLexLt
  infer_instance

/-- The keys of a list in first-occurrence order, without duplicates. -/
def firstOccKeys : List String → List String
  | [] => []
  | u :: rest => u :: firstOccKeys (rest.filter (fun v => v != u))
termination_by l => l.length
decreasing_by
  simp only [List.length_cons]
  exact Nat.lt_succ_of_le (List.length_filter_le _ _)

/-! ### Concrete fixtures shared by witnesses and counterexamples -/

/-- A concrete document. -/
def docA : DocumentContent := ⟨"a.txt", "QQ==", "text/plain"⟩

/-- A second concrete document. -/
def docB : DocumentContent := ⟨"b.txt", "Qg==", "text/plain"⟩

/-- A third concrete document. -/
def docC : DocumentContent := ⟨"c.txt", "Qw==", "text/plain"⟩

/-- A provider whose every call fails. -/
def failingProvider : ProviderModel :=
  { extractText := fun _ => .error "network down"
  , onlineResponse := fun _ => .error "network down"
  , pairResponse := fun _ _ => .error "network down" }

/-! ### Helper lemmas -/

theorem foldl_add_similarity (l : List DisplayRow) (a : ℚ) :
    l.foldl (fun acc curr => acc + curr.similarity) a = a + (l.map DisplayRow.similarity).sum := by
  induction l generalizing a with
  | nil => simp
  | cons x xs ih => simp [List.foldl_cons, ih, add_assoc]

theorem mem_pairIndices (n i j : Nat) : (i, j) ∈ pairIndices n ↔ i < j ∧ j < n := by
  simp only [pairIndices, List.mem_flatMap, List.mem_map, List.mem_range, List.mem_range'_1,
    Prod.mk.injEq]
  constructor
  · rintro ⟨a, ha, b, ⟨hb1, hb2⟩, rfl, rfl⟩
    omega
  · rintro ⟨hij, hjn⟩
    exact ⟨i, by omega, j, ⟨by omega, by omega⟩, rfl, rfl⟩

theorem two_mul_sum_range (n : Nat) : 2 * (List.range n).sum = n * (n - 1) := by
  induction n with
  | zero => rfl
  | succ m ih =>
    rw [List.range_succ, List.sum_append]
    simp only [List.sum_cons, List.sum_nil, add_zero, Nat.succ_sub_one]
    cases m with
    | zero => rfl
    | succ k =>
      have hk : (k + 1) * (k + 1 - 1) = (k + 1) * k := by simp
      calc 2 * ((List.range (k + 1)).sum + (k + 1))
          = 2 * (List.range (k + 1)).sum + 2 * (k + 1) := by ring
        _ = (k + 1) * k + 2 * (k + 1) := by rw [ih.trans hk]
        _ = (k + 1 + 1) * (k + 1) := by ring

theorem length_pairIndices (n : Nat) : (pairIndices n).length = n * (n - 1) / 2 := by
  have h1 : (pairIndices n).length = ((List.range n).map (fun i => n - (i + 1))).sum := by
    simp [pairIndices, List.length_flatMap, Function.comp_def]
  have h2 : (List.range n).map (fun i => n - (i + 1)) = (List.range n).reverse := by
    have h3 := List.reverse_range' 0 n
    rw [← List.range_eq_range'] at h3
    rw [h3]
    exact List.map_congr_left (fun a _ => by omega)
  have h4 : (pairIndices n).length = (List.range n).sum := by
    rw [h1, h2, List.sum_reverse]
  have h5 := two_mul_sum_range n
  omega

theorem pairwise_flatMap_helper {α β : Type} {f : α → List β} {r : β → β → Prop} :
    ∀ {l : List α}, (∀ a ∈ l, (f a).Pairwise r) →
      l.Pairwise (fun a b => ∀ x ∈ f a, ∀ y ∈ f b, r x y) → (l.flatMap f).Pairwise r := by
  intro l
  induction l with
  | nil => intro _ _; simp
  | cons a l ih =>
    intro h1 h2
    rw [List.flatMap_cons, List.pairwise_append]
    rcases List.pairwise_cons.mp h2 with ⟨hcross, h2'⟩
    refine ⟨h1 a (List.mem_cons_self a l), ih (fun b hb => h1 b (List.mem_cons_of_mem a hb)) h2', ?_⟩
    intro x hx y hy
    rcases List.mem_flatMap.mp hy with ⟨b, hb, hyb⟩
    exact hcross b hb x hx y hyb

theorem pairwise_pairIndices (n : Nat) : (pairIndices n).Pairwise pairLexLt := by
  apply pairwise_flatMap_helper
  · intro i _
    refine List.Pairwise.map (fun j => (i, j)) ?_ (List.pairwise_lt_range' (i + 1) (n - (i + 1)))
    intro a b hab
    exact Or.inr ⟨rfl, hab⟩
  · refine (List.pairwise_lt_range n).imp ?_
    intro a b hab x hx y hy
    rcases List.mem_map.mp hx with ⟨j1, _, rfl⟩
    rcases List.mem_map.mp hy with ⟨j2, _, rfl⟩
    exact Or.inl hab

theorem length_filterMap_all_some {α β : Type} (f : α → Option β) :
    ∀ (l : List α), (∀ x ∈ l, (f x).isSome) → (l.filterMap f).length = l.length := by
  intro l
  induction l with
  | nil => simp
  | cons a l ih =>
    intro h
    rcases Option.isSome_iff_exists.mp (h a (List.mem_cons_self a l)) with ⟨b, hb⟩
    rw [List.filterMap_cons, hb]
    simp only [List.length_cons]
    rw [ih (fun x hx => h x (List.mem_cons_of_mem a hx))]

/-! ### C8: short pairwise input returns the empty result set -/

/-- **C8**: in pairwise mode, fewer than two documents yield the empty result
set for *every* provider and schedule — in particular for a provider whose
every call fails, so no provider call is consulted. -/
theorem pairwise_short_input_returns_empty (P : ProviderModel) (docs : List DocumentContent)
    (sched : List Nat) (h : docs.length < 2) :
    checkPlagiarism P docs false sched = .ok [] := by
  simp [checkPlagiarism, h]

/-- Witness: one document with the always-failing provider still returns the
empty result set. -/
theorem pairwise_short_input_returns_empty_witness :
    [docA].length < 2 ∧ checkPlagiarism failingProvider [docA] false [] = .ok [] :=
  ⟨by decide, pairwise_short_input_returns_empty failingProvider [docA] [] (by decide)⟩

/-! ### C9: average similarity -/

/-- **C9**: the reported average similarity is `0` on an empty result set and
equals the arithmetic mean of the result similarities otherwise. -/
theorem average_similarity_is_mean :
    averageSimilarity [] = 0 ∧
    ∀ results : List DisplayRow, results ≠ [] →
      averageSimilarity results = (results.map DisplayRow.similarity).sum / results.length := by
  constructor
  · rfl
  · intro results h
    have hl : 0 < results.length := List.length_pos.mpr h
    simp [averageSimilarity, totalSimilarity, foldl_add_similarity, hl]

/-- Witness: similarities `[10, 50, 90]` average to `50`. -/
theorem average_similarity_is_mean_witness :
    ([⟨10⟩, ⟨50⟩, ⟨90⟩] : List DisplayRow) ≠ [] ∧
    averageSimilarity [⟨10⟩, ⟨50⟩, ⟨90⟩] =
      (([⟨10⟩, ⟨50⟩, ⟨90⟩] : List DisplayRow).map DisplayRow.similarity).sum /
        (([⟨10⟩, ⟨50⟩, ⟨90⟩] : List DisplayRow).length : ℚ) :=
  ⟨by decide, average_similarity_is_mean.2 _ (by decide)⟩

/-! ### C6: the pair generator -/

/-- **C6**: for an ordered document list of length `n ≥ 2` the generated index
pairs are exactly the `n·(n-1)/2` pairs `(i, j)` with `i < j < n`, in strict
lexicographic order (hence without duplicates or self-pairs), and the pair
list built over the documents has the same length. -/
theorem pair_generator_complete (n : Nat) (h : 2 ≤ n) :
    (pairIndices n).length = n * (n - 1) / 2 ∧
    (∀ i j : Nat, (i, j) ∈ pairIndices n ↔ i < j ∧ j < n) ∧
    (pairIndices n).Pairwise pairLexLt ∧
    (pairIndices n).Nodup ∧
    (∀ p ∈ pairIndices n, p.1 ≠ p.2) ∧
    (∀ docs : List DocumentContent, docs.length = n →
      (generatePairs docs).length = n * (n - 1) / 2) := by
  refine ⟨length_pairIndices n, fun i j => mem_pairIndices n i j, pairwise_pairIndices n, ?_, ?_, ?_⟩
  · exact (pairwise_pairIndices n).imp (fun {p q} hpq => by
      intro heq
      subst heq
      rcases hpq with h1 | ⟨_, h2⟩
      · exact lt_irrefl _ h1
      · exact lt_irrefl _ h2)
  · rintro ⟨i, j⟩ hp
    have := (mem_pairIndices n i j).mp hp
    simp only [ne_eq]
    omega
  · intro docs hlen
    unfold generatePairs
    rw [hlen]
    rw [length_filterMap_all_some _ _ ?_, length_pairIndices n]
    rintro ⟨i, j⟩ hij
    rcases (mem_pairIndices n i j).mp hij with ⟨hij2, hjn⟩
    have hi : i < docs.length := by omega
    have hj : j < docs.length := by omega
    rw [List.get?_eq_get hi, List.get?_eq_get hj]
    rfl

/-- Witness: at `n = 3` the generator yields the three lexicographically
ordered pairs. -/
theorem pair_generator_complete_witness :
    2 ≤ 3 ∧
    ((pairIndices 3).length = 3 * (3 - 1) / 2 ∧
     (∀ i j : Nat, (i, j) ∈ pairIndices 3 ↔ i < j ∧ j < 3) ∧
     (pairIndices 3).Pairwise pairLexLt ∧
     (pairIndices 3).Nodup ∧
     (∀ p ∈ pairIndices 3, p.1 ≠ p.2) ∧
     (∀ docs : List DocumentContent, docs.length = 3 →
       (generatePairs docs).length = 3 * (3 - 1) / 2)) :=
  ⟨by decide, pair_generator_complete 3 (by decide)⟩

/-! ### `Promise.all` lemmas -/

theorem collectResults_map_ok {ε α : Type} (l : List α) :
    collectResults (ε := ε) (l.map Except.ok) = .ok l := by
  induction l with
  | nil => rfl
  | cons a l ih => simp [collectResults, ih]

theorem collectResults_ok_inv {ε α : Type} :
    ∀ (outcomes : List (Except ε α)) (l : List α),
      collectResults outcomes = .ok l → outcomes = l.map Except.ok := by
  intro outcomes
  induction outcomes with
  | nil =>
    intro l h
    simp only [collectResults] at h
    injection h with h'
    rw [← h']
    rfl
  | cons o rest ih =>
    intro l h
    cases o with
    | error e => simp [collectResults] at h
    | ok a =>
      simp only [collectResults] at h
      split at h
      · next l2 heq =>
        injection h with h'
        rw [← h']
        simp [ih l2 heq]
      · cases h

theorem collectResults_error_mem {ε α : Type} :
    ∀ (outcomes : List (Except ε α)), (∃ e0, Except.error e0 ∈ outcomes) →
      ∃ e, collectResults outcomes = .error e ∧ Except.error e ∈ outcomes := by
  intro outcomes
  induction outcomes with
  | nil =>
    rintro ⟨e0, h⟩
    cases h
  | cons o rest ih =>
    rintro ⟨e0, h⟩
    cases o with
    | error e => exact ⟨e, rfl, List.mem_cons_self _ _⟩
    | ok a =>
      have hrest : ∃ e1, Except.error e1 ∈ rest := by
        rcases List.mem_cons.mp h with h1 | h2
        · simp at h1
        · exact ⟨e0, h2⟩
      rcases ih hrest with ⟨e, hc, hm⟩
      refine ⟨e, ?_, List.mem_cons_of_mem _ hm⟩
      simp [collectResults, hc]

theorem promiseAllSched_ok_inv {ε α : Type} (outcomes : List (Except ε α)) (sched : List Nat)
    (l : List α) (h : promiseAllSched outcomes sched = .ok l) :
    outcomes = l.map Except.ok := by
  unfold promiseAllSched at h
  split at h
  · cases h
  · exact collectResults_ok_inv outcomes l h

theorem promiseAllSched_ok_all_scheds {ε α : Type} (l : List α) (sched : List Nat) :
    promiseAllSched (l.map (Except.ok : α → Except ε α)) sched = .ok l := by
  unfold promiseAllSched
  split
  · next e heq =>
    exfalso
    rcases List.exists_of_findSome?_eq_some heq with ⟨i, _, hfi⟩
    rw [List.get?_map] at hfi
    cases hg : l.get? i with
    | none => rw [hg] at hfi; simp at hfi
    | some b => rw [hg] at hfi; simp at hfi
  · exact collectResults_map_ok l

theorem promiseAllSched_error_of_mem {ε α : Type} (outcomes : List (Except ε α)) (sched : List Nat)
    (h : ∃ e0, Except.error e0 ∈ outcomes) :
    ∃ e, promiseAllSched outcomes sched = .error e ∧ Except.error e ∈ outcomes := by
  unfold promiseAllSched
  split
  · next e heq =>
    refine ⟨e, rfl, ?_⟩
    rcases List.exists_of_findSome?_eq_some heq with ⟨i, _, hfi⟩
    cases hg : outcomes.get? i with
    | none => rw [hg] at hfi; simp at hfi
    | some o =>
      rw [hg] at hfi
      cases o with
      | ok a => simp at hfi
      | error e' =>
        simp only [Option.some.injEq] at hfi
        rw [← hfi]
        exact List.get?_mem hg
  · exact collectResults_error_mem outcomes h

/-! ### Error shapes of the analysis calls -/

theorem analyzePair_error_shape (P : ProviderModel) (d1 d2 : DocumentContent) (e : String)
    (h : analyzePair P d1 d2 = .error e) : e = pairFailMessage d1.name d2.name := by
  unfold analyzePair at h
  split at h
  · injection h with h'
    exact h'.symm
  · split at h
    · injection h with h'
      exact h'.symm
    · cases h

theorem analyzeContentOnline_error_shape (P : ProviderModel) (docName textContent : String)
    (e : String) (h : analyzeContentOnline P docName textContent = .error e) :
    e = onlineFailMessage docName := by
  unfold analyzeContentOnline at h
  split at h
  · injection h with h'
    exact h'.symm
  · split at h
    · injection h with h'
      exact h'.symm
    · unfold normalizeParsed at h
      split at h
      · cases h
      · injection h with h'
        exact h'.symm

theorem onlineWorkItem_error_shape (P : ProviderModel) (doc : DocumentContent) (e : String)
    (h : onlineWorkItem P doc = .error e) :
    e = onlineFailMessage doc.name ∨ ∃ m, e = extractFailMessage doc.name m := by
  unfold onlineWorkItem at h
  split at h
  · next e' heq =>
    injection h with h'
    right
    unfold extractTextFromDoc at heq
    split at heq
    · next msg _ =>
      injection heq with h2
      exact ⟨msg, by rw [← h', ← h2]⟩
    · split at heq
      · injection heq with h2
        exact ⟨_, by rw [← h', ← h2]⟩
      · cases heq
  · next t heq =>
    exact Or.inl (analyzeContentOnline_error_shape P doc.name t e h)

/-- Pair generation is empty below two documents. -/
theorem generatePairs_short (docs : List DocumentContent) (h : docs.length < 2) :
    generatePairs docs = [] := by
  unfold generatePairs
  obtain h0 | h1 : docs.length = 0 ∨ docs.length = 1 := by omega
  · rw [h0]
    rfl
  · rw [h1]
    rfl

/-- Membership in the generated pairs forces at least two documents. -/
theorem two_le_of_mem_generatePairs {docs : List DocumentContent}
    {p : DocumentContent × DocumentContent} (h : p ∈ generatePairs docs) : 2 ≤ docs.length := by
  unfold generatePairs at h
  rcases List.mem_filterMap.mp h with ⟨ij, hij, _⟩
  rcases ij with ⟨i, j⟩
  rcases (mem_pairIndices docs.length i j).mp hij with ⟨h1, h2⟩
  omega

/-! ### C4: fail-fast aggregation with an identifying error message -/

/-- **C4**: in either mode, if any single work item's call fails, the whole
aggregation returns an error (no partial result list), and the surfaced error
is the failure message of some failing work item, which names the document
pair (pairwise mode) or the document (online mode) that failed. -/
theorem failing_call_fails_whole_run :
    (∀ (P : ProviderModel) (docs : List DocumentContent) (sched : List Nat)
       (p : DocumentContent × DocumentContent) (e0 : String),
       p ∈ generatePairs docs → analyzePair P p.1 p.2 = .error e0 →
       ∃ q e, q ∈ generatePairs docs ∧
         checkPlagiarism P docs false sched = .error e ∧
         analyzePair P q.1 q.2 = .error e ∧
         e = pairFailMessage q.1.name q.2.name) ∧
    (∀ (P : ProviderModel) (docs : List DocumentContent) (sched : List Nat)
       (d : DocumentContent) (e0 : String),
       d ∈ docs → onlineWorkItem P d = .error e0 →
       ∃ d' e, d' ∈ docs ∧
         checkPlagiarism P docs true sched = .error e ∧
         onlineWorkItem P d' = .error e ∧
         (e = onlineFailMessage d'.name ∨ ∃ m, e = extractFailMessage d'.name m)) := by
  constructor
  · intro P docs sched p e0 hp he
    have h2 : 2 ≤ docs.length := two_le_of_mem_generatePairs hp
    have hck : checkPlagiarism P docs false sched =
        promiseAllSched ((generatePairs docs).map
          (fun q => (analyzePair P q.1 q.2).map AnalysisResult.pairwise)) sched := by
      unfold checkPlagiarism
      rw [if_neg (by simp), if_neg (by omega)]
    have hmem : (Except.error e0 : Except String AnalysisResult) ∈
        (generatePairs docs).map (fun q => (analyzePair P q.1 q.2).map AnalysisResult.pairwise) := by
      refine List.mem_map.mpr ⟨p, hp, ?_⟩
      rw [he]
      rfl
    rcases promiseAllSched_error_of_mem _ sched ⟨e0, hmem⟩ with ⟨e, heq, hm⟩
    rcases List.mem_map.mp hm with ⟨q, hq, hqe⟩
    cases hv : analyzePair P q.1 q.2 with
    | ok r =>
      rw [hv] at hqe
      simp [Except.map] at hqe
    | error e' =>
      rw [hv] at hqe
      have he' : e' = e := by simpa [Except.map] using hqe
      refine ⟨q, e, hq, by rw [hck]; exact heq, by rw [hv, he'], ?_⟩
      rw [← he']
      exact analyzePair_error_shape P q.1 q.2 e' hv
  · intro P docs sched d e0 hd he
    have h1 : 0 < docs.length := List.length_pos.mpr (List.ne_nil_of_mem hd)
    have hck : checkPlagiarism P docs true sched =
        promiseAllSched (docs.map
          (fun d' => (onlineWorkItem P d').map AnalysisResult.online)) sched := by
      unfold checkPlagiarism
      rw [if_pos rfl, if_neg (by omega)]
    have hmem : (Except.error e0 : Except String AnalysisResult) ∈
        docs.map (fun d' => (onlineWorkItem P d').map AnalysisResult.online) := by
      refine List.mem_map.mpr ⟨d, hd, ?_⟩
      rw [he]
      rfl
    rcases promiseAllSched_error_of_mem _ sched ⟨e0, hmem⟩ with ⟨e, heq, hm⟩
    rcases List.mem_map.mp hm with ⟨d', hd', hde⟩
    cases hv : onlineWorkItem P d' with
    | ok r =>
      rw [hv] at hde
      simp [Except.map] at hde
    | error e' =>
      rw [hv] at hde
      have he' : e' = e := by simpa [Except.map] using hde
      refine ⟨d', e, hd', by rw [hck]; exact heq, by rw [hv, he'], ?_⟩
      rw [← he']
      exact onlineWorkItem_error_shape P d' e' hv

/-- Witness: with an always-failing provider and two documents, the run fails
with the message naming the failing pair. -/
theorem failing_call_fails_whole_run_witness :
    ((docA, docB) ∈ generatePairs [docA, docB] ∧
     analyzePair failingProvider docA docB = .error (pairFailMessage "a.txt" "b.txt")) ∧
    (∃ q e, q ∈ generatePairs [docA, docB] ∧
      checkPlagiarism failingProvider [docA, docB] false [0, 1] = .error e ∧
      analyzePair failingProvider q.1 q.2 = .error e ∧
      e = pairFailMessage q.1.name q.2.name) :=
  ⟨⟨by decide, rfl⟩,
   failing_call_fails_whole_run.1 failingProvider [docA, docB] [0, 1] (docA, docB)
     (pairFailMessage "a.txt" "b.txt") (by decide) rfl⟩

/-! ### C5: results keep work-item generation order, independent of completion order -/

/-- **C5**: every successful aggregation lists, in both modes, exactly the
work items' results in the order the work items were generated (pair order,
resp. document order), and the value is the same for every completion
schedule. -/
theorem results_follow_generation_order :
    (∀ (P : ProviderModel) (docs : List DocumentContent) (sched : List Nat)
       (l : List AnalysisResult),
       checkPlagiarism P docs false sched = .ok l →
       ((generatePairs docs).map (fun p => (analyzePair P p.1 p.2).map AnalysisResult.pairwise)
          = l.map Except.ok) ∧
       (∀ sched', checkPlagiarism P docs false sched' = .ok l)) ∧
    (∀ (P : ProviderModel) (docs : List DocumentContent) (sched : List Nat)
       (l : List AnalysisResult),
       checkPlagiarism P docs true sched = .ok l →
       (docs.map (fun d => (onlineWorkItem P d).map AnalysisResult.online) = l.map Except.ok) ∧
       (∀ sched', checkPlagiarism P docs true sched' = .ok l)) := by
  constructor
  · intro P docs sched l h
    by_cases hlt : docs.length < 2
    · have hck : checkPlagiarism P docs false sched = .ok [] := by
        unfold checkPlagiarism
        rw [if_neg (by simp), if_pos hlt]
      rw [hck] at h
      injection h with h'
      subst h'
      constructor
      · rw [generatePairs_short docs hlt]
        rfl
      · intro sched'
        unfold checkPlagiarism
        rw [if_neg (by simp), if_pos hlt]
    · have hck : ∀ s : List Nat, checkPlagiarism P docs false s =
          promiseAllSched ((generatePairs docs).map
            (fun p => (analyzePair P p.1 p.2).map AnalysisResult.pairwise)) s := by
        intro s
        unfold checkPlagiarism
        rw [if_neg (by simp), if_neg hlt]
      rw [hck sched] at h
      have horder := promiseAllSched_ok_inv _ sched l h
      refine ⟨horder, fun sched' => ?_⟩
      rw [hck sched', horder]
      exact promiseAllSched_ok_all_scheds l sched'
  · intro P docs sched l h
    by_cases hlt : docs.length < 1
    · have hdocs : docs = [] := by
        cases docs with
        | nil => rfl
        | cons a t => simp at hlt
      subst hdocs
      have hck : ∀ s : List Nat, checkPlagiarism P [] true s = .ok [] := by
        intro s
        unfold checkPlagiarism
        rw [if_pos rfl, if_pos (by simp)]
      rw [hck sched] at h
      injection h with h'
      subst h'
      exact ⟨rfl, fun sched' => hck sched'⟩
    · have hck : ∀ s : List Nat, checkPlagiarism P docs true s =
          promiseAllSched (docs.map
            (fun d => (onlineWorkItem P d).map AnalysisResult.online)) s := by
        intro s
        unfold checkPlagiarism
        rw [if_pos rfl, if_neg hlt]
      rw [hck sched] at h
      have horder := promiseAllSched_ok_inv _ sched l h
      refine ⟨horder, fun sched' => ?_⟩
      rw [hck sched', horder]
      exact promiseAllSched_ok_all_scheds l sched'

/-- A provider whose pairwise call always returns a fixed valid JSON
response. -/
def okPairProvider : ProviderModel :=
  { extractText := fun _ => .ok "hello"
  , onlineResponse := fun _ => .ok ("\x7b\"similarity\": 5, \"matched_sentences\": []\x7d", [])
  , pairResponse := fun _ _ => .ok "\x7b\"similarity\": 10, \"matched_sentences\": []\x7d" }

/-- The pairwise result produced by `okPairProvider` for a named pair. -/
def pairResult10 (n1 n2 : String) : ComparisonResult :=
  ⟨n1, n2, some (.num 10), some (.arr [])⟩

/-- Witness: three documents analyzed under the completion schedule that
resolves pair `(1,2)` first still yield the results in pair-generation order
`(0,1), (0,2), (1,2)`, and the same list under every other schedule. -/
theorem results_follow_generation_order_witness :
    checkPlagiarism okPairProvider [docA, docB, docC] false [2, 0, 1] = .ok
      [.pairwise (pairResult10 "a.txt" "b.txt"), .pairwise (pairResult10 "a.txt" "c.txt"),
       .pairwise (pairResult10 "b.txt" "c.txt")] ∧
    ((generatePairs [docA, docB, docC]).map
        (fun p => (analyzePair okPairProvider p.1 p.2).map AnalysisResult.pairwise)
      = [AnalysisResult.pairwise (pairResult10 "a.txt" "b.txt"),
         AnalysisResult.pairwise (pairResult10 "a.txt" "c.txt"),
         AnalysisResult.pairwise (pairResult10 "b.txt" "c.txt")].map Except.ok) ∧
    (∀ sched', checkPlagiarism okPairProvider [docA, docB, docC] false sched' = .ok
      [.pairwise (pairResult10 "a.txt" "b.txt"), .pairwise (pairResult10 "a.txt" "c.txt"),
       .pairwise (pairResult10 "b.txt" "c.txt")]) :=
  ⟨rfl,
   (results_follow_generation_order.1 okPairProvider [docA, docB, docC] [2, 0, 1] _ rfl).1,
   (results_follow_generation_order.1 okPairProvider [docA, docB, docC] [2, 0, 1] _ rfl).2⟩

/-! ### Deduplication lemmas (JS `Map` semantics) -/

theorem mem_firstOccKeys (u : String) : ∀ l : List String, u ∈ firstOccKeys l ↔ u ∈ l := by
  intro l
  induction l using firstOccKeys.induct with
  | case1 => simp [firstOccKeys]
  | case2 x rest ih =>
    simp only [firstOccKeys]
    constructor
    · intro h
      rcases List.mem_cons.mp h with rfl | h2
      · exact List.mem_cons_self _ _
      · exact List.mem_cons_of_mem _ (List.mem_filter.mp (ih.mp h2)).1
    · intro h
      rcases List.mem_cons.mp h with rfl | h2
      · exact List.mem_cons_self _ _
      · by_cases hx : u = x
        · rw [hx]
          exact List.mem_cons_self _ _
        · refine List.mem_cons_of_mem _ (ih.mpr (List.mem_filter.mpr ⟨h2, ?_⟩))
          simpa using hx

theorem firstOccKeys_nodup : ∀ l : List String, (firstOccKeys l).Nodup := by
  intro l
  induction l using firstOccKeys.induct with
  | case1 => simp [firstOccKeys]
  | case2 x rest ih =>
    simp only [firstOccKeys]
    refine List.nodup_cons.mpr ⟨?_, ih⟩
    intro hmem
    have h2 := (List.mem_filter.mp ((mem_firstOccKeys x _).mp hmem)).2
    simp at h2

theorem firstOccKeys_append_one (u : String) : ∀ xs : List String,
    firstOccKeys (xs ++ [u]) = if u ∈ xs then firstOccKeys xs else firstOccKeys xs ++ [u] := by
  intro xs
  induction xs using firstOccKeys.induct with
  | case1 => simp [firstOccKeys]
  | case2 x rest ih =>
    by_cases hux : u = x
    · subst hux
      simp only [List.cons_append, firstOccKeys, List.filter_append]
      have h1 : [u].filter (fun v => v != u) = [] := by simp
      rw [h1, List.append_nil]
      simp [List.mem_cons]
    · simp only [List.cons_append, firstOccKeys, List.filter_append]
      have h1 : [u].filter (fun v => v != x) = [u] := by simp [hux]
      rw [h1, ih]
      have hmemiff : (u ∈ rest.filter (fun v => v != x)) ↔ u ∈ rest := by
        simp [List.mem_filter, hux]
      by_cases hur : u ∈ rest
      · rw [if_pos (hmemiff.mpr hur), if_pos (List.mem_cons.mpr (Or.inr hur))]
      · have hnc : ¬ u ∈ (x :: rest) := by
          intro hc
          rcases List.mem_cons.mp hc with h | h
          · exact hux h
          · exact hur h
        rw [if_neg (fun hc => hur (hmemiff.mp hc)), if_neg hnc]

theorem mapInsert_keys (m : List (String × Source)) (k : String) (v : Source) :
    (mapInsert m k v).map Prod.fst =
      if k ∈ m.map Prod.fst then m.map Prod.fst else m.map Prod.fst ++ [k] := by
  induction m with
  | nil => simp [mapInsert]
  | cons kv0 rest ih =>
    rcases kv0 with ⟨k', v'⟩
    by_cases hk : k' = k
    · subst hk
      simp [mapInsert]
    · simp only [mapInsert, if_neg hk, List.map_cons, ih]
      by_cases hmem : k ∈ rest.map Prod.fst
      · rw [if_pos hmem, if_pos (List.mem_cons.mpr (Or.inr hmem))]
      · rw [if_neg hmem, if_neg ?_]
        · simp
        · intro hc
          rcases List.mem_cons.mp hc with h | h
          · exact hk h.symm
          · exact hmem h

theorem mapInsert_mem_of_nodup :
    ∀ (m : List (String × Source)), (m.map Prod.fst).Nodup →
      ∀ (kv : String × Source) (k : String) (v : Source), kv ∈ mapInsert m k v →
        kv = (k, v) ∨ (kv ∈ m ∧ kv.1 ≠ k) := by
  intro m
  induction m with
  | nil =>
    intro _ kv k v h
    simp [mapInsert] at h
    exact Or.inl h
  | cons kv0 rest ih =>
    rintro hnd kv k v h
    rcases kv0 with ⟨k', v'⟩
    rw [List.map_cons] at hnd
    rcases List.nodup_cons.mp hnd with ⟨hknmem, hndrest⟩
    by_cases hk : k' = k
    · subst hk
      simp only [mapInsert, if_pos rfl] at h
      rcases List.mem_cons.mp h with rfl | h2
      · exact Or.inl rfl
      · right
        refine ⟨List.mem_cons_of_mem _ h2, fun hc => ?_⟩
        exact hknmem (hc ▸ (List.mem_map.mpr ⟨kv, h2, rfl⟩))
    · simp only [mapInsert, if_neg hk] at h
      rcases List.mem_cons.mp h with rfl | h2
      · exact Or.inr ⟨List.mem_cons_self _ _, fun hc => hk hc⟩
      · rcases ih hndrest kv k v h2 with h3 | ⟨h3, h4⟩
        · exact Or.inl h3
        · exact Or.inr ⟨List.mem_cons_of_mem _ h3, h4⟩

theorem insertAll_append_one (l : List Source) (s : Source) :
    insertAll (l ++ [s]) = mapInsert (insertAll l) s.uri s := by
  unfold insertAll
  rw [List.foldl_append]
  rfl

theorem insertAll_keys (l : List Source) :
    (insertAll l).map Prod.fst = firstOccKeys (l.map (fun s => s.uri)) := by
  induction l using List.reverseRecOn with
  | nil => simp [insertAll, firstOccKeys]
  | append_singleton l s ih =>
    rw [insertAll_append_one, mapInsert_keys, ih, List.map_append]
    simp only [List.map_cons, List.map_nil]
    rw [firstOccKeys_append_one]
    by_cases hmem : s.uri ∈ l.map (fun t => t.uri)
    · rw [if_pos (by rwa [mem_firstOccKeys]), if_pos hmem]
    · rw [if_neg (by rwa [mem_firstOccKeys]), if_neg hmem]

theorem insertAll_mem_char (l : List Source) :
    ∀ kv ∈ insertAll l, kv.2.uri = kv.1 ∧
      (l.filter (fun t => t.uri == kv.1)).getLast? = some kv.2 := by
  induction l using List.reverseRecOn with
  | nil =>
    intro kv h
    simp [insertAll] at h
  | append_singleton l s ih =>
    intro kv hkv
    rw [insertAll_append_one] at hkv
    have hnd : ((insertAll l).map Prod.fst).Nodup := by
      rw [insertAll_keys]
      exact firstOccKeys_nodup _
    rcases mapInsert_mem_of_nodup _ hnd kv s.uri s hkv with rfl | ⟨hmem, hne⟩
    · refine ⟨rfl, ?_⟩
      rw [List.filter_append]
      have h1 : [s].filter (fun t => t.uri == (s.uri, s).1) = [s] := by simp
      rw [h1, List.getLast?_concat]
    · rcases ih kv hmem with ⟨h1, h2⟩
      refine ⟨h1, ?_⟩
      rw [List.filter_append]
      have hf : (s.uri == kv.1) = false := beq_eq_false_iff_ne.mpr (fun hc => hne hc.symm)
      have h3 : [s].filter (fun t => t.uri == kv.1) = [] := by simp [hf]
      rw [h3, List.append_nil, h2]

theorem dedupeSources_mem_char (l : List Source) (s : Source) (h : s ∈ dedupeSources l) :
    s.uri ≠ "" ∧ (l.filter (fun t => t.uri == s.uri)).getLast? = some s ∧ s ∈ l := by
  unfold dedupeSources uniqueSources at h
  rcases List.mem_map.mp h with ⟨kv, hkv, hsnd⟩
  rcases insertAll_mem_char _ kv hkv with ⟨h1, h2⟩
  subst hsnd
  have hmemf : kv.2 ∈ (l.filter (fun t => t.uri != "")) := by
    have hmem2 := List.mem_of_mem_getLast? h2
    exact (List.mem_filter.mp hmem2).1
  have huri : kv.2.uri ≠ "" := by
    have hb := (List.mem_filter.mp hmemf).2
    simpa using hb
  refine ⟨huri, ?_, (List.mem_filter.mp hmemf).1⟩
  rw [List.filter_filter] at h2
  rw [h1]
  rw [show (l.filter (fun t => t.uri == kv.1)) =
      l.filter (fun t => (t.uri == kv.1) && (t.uri != "")) from ?_]
  · exact h2
  · apply List.filter_congr
    intro t _
    by_cases ht : t.uri = kv.1
    · have hne : kv.1 ≠ "" := h1 ▸ huri
      simp [ht, hne]
    · simp [ht]

theorem dedupeSources_covers (l : List Source) (t : Source) (ht : t ∈ l) (hu : t.uri ≠ "") :
    ∃ s ∈ dedupeSources l, s.uri = t.uri := by
  have htf : t ∈ l.filter (fun x => x.uri != "") := List.mem_filter.mpr ⟨ht, by simpa using hu⟩
  have hkey : t.uri ∈ (insertAll (l.filter (fun x => x.uri != ""))).map Prod.fst := by
    rw [insertAll_keys, mem_firstOccKeys]
    exact List.mem_map.mpr ⟨t, htf, rfl⟩
  rcases List.mem_map.mp hkey with ⟨kv, hkv, hfst⟩
  refine ⟨kv.2, ?_, ?_⟩
  · unfold dedupeSources uniqueSources
    exact List.mem_map.mpr ⟨kv, hkv, rfl⟩
  · rw [(insertAll_mem_char _ kv hkv).1, hfst]

theorem dedupeSources_keys (l : List Source) :
    (dedupeSources l).map (fun s => s.uri) =
      firstOccKeys ((l.filter (fun s => s.uri != "")).map (fun s => s.uri)) := by
  unfold dedupeSources uniqueSources
  rw [List.map_map, ← insertAll_keys]
  apply List.map_congr_left
  intro kv hkv
  exact (insertAll_mem_char _ kv hkv).1

/-! ### C2: source deduplication (corrected) -/

/-- **C2 counterexample**: on the specification's own example input the
deduplicator keeps the title of the **last** occurrence of URI `"a"` (the JS
`Map` constructor overwrites the value of a repeated key), so the output is
`[{a, A2}, {b, B}]` and not the claimed `[{a, A1}, {b, B}]`. -/
theorem dedupe_keeps_last_title_counterexample :
    dedupeSources [⟨"a", "A1"⟩, ⟨"a", "A2"⟩, ⟨"", "X"⟩, ⟨"b", "B"⟩]
      = [⟨"a", "A2"⟩, ⟨"b", "B"⟩] ∧
    dedupeSources [⟨"a", "A1"⟩, ⟨"a", "A2"⟩, ⟨"", "X"⟩, ⟨"b", "B"⟩]
      ≠ [⟨"a", "A1"⟩, ⟨"b", "B"⟩] :=
  ⟨rfl, by decide⟩

/-- **C2 (amended)**: the deduplicator drops entries with an empty URI,
keeps exactly one entry per surviving URI with the URIs in first-occurrence
order, and the entry kept for a URI is its **last** occurrence in the input
(so the title of the last duplicate wins, not the first). -/
theorem dedupe_first_position_last_value (l : List Source) :
    ((dedupeSources l).map (fun s => s.uri)
       = firstOccKeys ((l.filter (fun s => s.uri != "")).map (fun s => s.uri))) ∧
    (∀ s ∈ dedupeSources l, s.uri ≠ "" ∧
       (l.filter (fun t => t.uri == s.uri)).getLast? = some s) ∧
    (∀ t ∈ l, t.uri ≠ "" → ∃ s ∈ dedupeSources l, s.uri = t.uri) := by
  refine ⟨dedupeSources_keys l, ?_, ?_⟩
  · intro s hs
    exact ⟨(dedupeSources_mem_char l s hs).1, (dedupeSources_mem_char l s hs).2.1⟩
  · intro t ht hu
    exact dedupeSources_covers l t ht hu

/-- Witness: on the specification's example input, the surviving entry for
URI `"a"` is the last occurrence `{a, A2}`. -/
theorem dedupe_first_position_last_value_witness :
    (⟨"a", "A2"⟩ : Source) ∈
      dedupeSources [⟨"a", "A1"⟩, ⟨"a", "A2"⟩, ⟨"", "X"⟩, ⟨"b", "B"⟩] ∧
    ((Source.mk "a" "A2").uri ≠ "" ∧
     (([⟨"a", "A1"⟩, ⟨"a", "A2"⟩, ⟨"", "X"⟩, ⟨"b", "B"⟩] : List Source).filter
        (fun t => t.uri == (Source.mk "a" "A2").uri)).getLast? = some ⟨"a", "A2"⟩) :=
  ⟨by decide,
   (dedupe_first_position_last_value
       [⟨"a", "A1"⟩, ⟨"a", "A2"⟩, ⟨"", "X"⟩, ⟨"b", "B"⟩]).2.1 ⟨"a", "A2"⟩ (by decide)⟩

/-! ### C10: fields of returned sources -/

/-- The title mapped from a grounding chunk is never empty. -/
theorem chunkToSource_title_ne (c : GroundingChunk) : (chunkToSource c).title ≠ "" := by
  rcases c with ⟨w⟩
  cases w with
  | none => simp [chunkToSource]
  | some wi =>
    rcases wi with ⟨u, ti⟩
    cases ti with
    | none => simp [chunkToSource]
    | some t =>
      simp only [chunkToSource]
      split
      · simp
      · next ht => exact ht

/-- **C10**: every source of a returned online result has a non-empty URI and
a non-empty title; a grounding citation with a missing or empty title is
mapped to the default title `"Untitled"`; and every citation whose mapped URI
is non-empty is represented in the deduplicated output (only URI-less
citations are dropped). -/
theorem online_sources_nonempty_fields :
    (∀ (P : ProviderModel) (docName textContent : String) (r : OnlineComparisonResult),
       analyzeContentOnline P docName textContent = .ok r →
       ∀ s ∈ r.sources, s.uri ≠ "" ∧ s.title ≠ "") ∧
    (∀ w : WebInfo, (w.title = none ∨ w.title = some "") →
       (chunkToSource ⟨some w⟩).title = "Untitled") ∧
    (∀ (chunks : List GroundingChunk) (c : GroundingChunk), c ∈ chunks →
       (chunkToSource c).uri ≠ "" →
       ∃ s ∈ dedupeSources (chunks.map chunkToSource), s.uri = (chunkToSource c).uri) := by
  refine ⟨?_, ?_, ?_⟩
  · intro P docName textContent r hr s hs
    have hsrc : ∃ chunks : List GroundingChunk,
        r.sources = dedupeSources (chunks.map chunkToSource) := by
      unfold analyzeContentOnline at hr
      cases hresp : P.onlineResponse textContent with
      | error e =>
        rw [hresp] at hr
        cases hr
      | ok pair =>
        rcases pair with ⟨text, chunks⟩
        rw [hresp] at hr
        dsimp only at hr
        cases hext : extractJsonFromText text with
        | error e2 =>
          rw [hext] at hr
          cases hr
        | ok parsed =>
          rw [hext] at hr
          dsimp only at hr
          unfold normalizeParsed at hr
          split at hr
          · injection hr with hr'
            subst hr'
            exact ⟨chunks, rfl⟩
          · cases hr
    rcases hsrc with ⟨chunks, hchunks⟩
    rw [hchunks] at hs
    rcases dedupeSources_mem_char _ s hs with ⟨h1, _, h3⟩
    refine ⟨h1, ?_⟩
    rcases List.mem_map.mp h3 with ⟨c, _, rfl⟩
    exact chunkToSource_title_ne c
  · intro w hw
    unfold chunkToSource
    rcases hw with hw | hw <;> simp [hw]
  · intro chunks c hc hu
    exact dedupeSources_covers _ _ (List.mem_map.mpr ⟨c, hc, rfl⟩) hu

/-- A grounding chunk with URI `"u"` and an empty title. -/
def chunkU : GroundingChunk := ⟨some ⟨some "u", some ""⟩⟩

/-- Witness: a chunk with URI `"u"` and an empty title yields the source
`{u, Untitled}`, which survives with both fields non-empty. -/
theorem online_sources_nonempty_fields_witness :
    (chunkToSource chunkU).title = "Untitled" ∧
    (∃ s ∈ dedupeSources ([chunkU].map chunkToSource),
       s.uri = (chunkToSource chunkU).uri) :=
  ⟨online_sources_nonempty_fields.2.1 ⟨some "u", some ""⟩ (Or.inr rfl),
   online_sources_nonempty_fields.2.2 [chunkU] chunkU
     (by decide) (by decide)⟩

/-! ### C7: per-sentence shape coercion -/

/-- **C7**: a bare string normalizes to itself, an object with a string
`sentence` field is unwrapped, every other shape falls back to the sentinel,
and a `matched_sentences` array of arbitrary element shapes never makes the
whole result fail. -/
theorem sentence_normalization_total :
    (∀ s : String, normalizeSentence (.str s) = ⟨s⟩) ∧
    (∀ (kvs : List (String × Json)) (s : String),
       lookupLast kvs "sentence" = some (.str s) → normalizeSentence (.obj kvs) = ⟨s⟩) ∧
    (∀ item : Json, (∀ s, item ≠ .str s) →
       (∀ kvs, item = .obj kvs → ∀ s, lookupLast kvs "sentence" ≠ some (.str s)) →
       normalizeSentence item = ⟨errorSentinel⟩) ∧
    (∀ (docName : String) (sim : ℚ) (rawSentences : List Json) (chunks : List GroundingChunk),
       normalizeParsed docName
           (.obj [("similarity", .num sim), ("matched_sentences", .arr rawSentences)]) chunks
         = .ok ⟨docName, sim, rawSentences.map normalizeSentence,
                dedupeSources (chunks.map chunkToSource)⟩) := by
  refine ⟨fun s => rfl, ?_, ?_, ?_⟩
  · intro kvs s h
    simp only [normalizeSentence, h]
  · intro item h1 h2
    cases item with
    | null => rfl
    | bool b => rfl
    | num q => rfl
    | arr xs => rfl
    | str s => exact absurd rfl (h1 s)
    | obj kvs =>
      simp only [normalizeSentence]
      cases hl : lookupLast kvs "sentence" with
      | none => rfl
      | some v =>
        cases v with
        | str s => exact absurd hl (h2 kvs rfl s)
        | null => rfl
        | bool b => rfl
        | num q => rfl
        | arr xs => rfl
        | obj kvs2 => rfl
  · intro docName sim rawSentences chunks
    rfl

/-- Witness: the specification's example list
`["plain", {sentence: "wrapped"}, {other: 1}]` normalizes elementwise to
`plain`, `wrapped`, and the sentinel, and the containing result succeeds. -/
theorem sentence_normalization_total_witness :
    normalizeSentence (.str "plain") = ⟨"plain"⟩ ∧
    normalizeSentence (.obj [("sentence", .str "wrapped")]) = ⟨"wrapped"⟩ ∧
    normalizeSentence (.obj [("other", .num 1)]) = ⟨errorSentinel⟩ ∧
    normalizeParsed "doc.txt"
        (.obj [("similarity", .num 7), ("matched_sentences",
          .arr [.str "plain", .obj [("sentence", .str "wrapped")], .obj [("other", .num 1)]])]) []
      = .ok ⟨"doc.txt", 7, [⟨"plain"⟩, ⟨"wrapped"⟩, ⟨errorSentinel⟩], []⟩ := by
  refine ⟨sentence_normalization_total.1 "plain",
    sentence_normalization_total.2.1 [("sentence", .str "wrapped")] "wrapped" rfl,
    sentence_normalization_total.2.2.1 (.obj [("other", .num 1)])
      (fun s h => Json.noConfusion h) ?_, ?_⟩
  · intro kvs hk s hl
    injection hk with hk'
    subst hk'
    simp [lookupLast] at hl
  · exact sentence_normalization_total.2.2.2 "doc.txt" 7
      [.str "plain", .obj [("sentence", .str "wrapped")], .obj [("other", .num 1)]] []

/-! ### C3: similarity range (corrected) -/

/-- A provider whose online response reports similarity `150`. -/
def over150Provider : ProviderModel :=
  { extractText := fun _ => .ok "some text"
  , onlineResponse := fun _ => .ok ("\x7b\"similarity\": 150, \"matched_sentences\": []\x7d", [])
  , pairResponse := fun _ _ => .error "unused" }

/-- **C3 counterexample**: a full online analysis run over a provider
response reporting similarity `150` succeeds and returns `150` unchanged,
which is outside `[0, 100]` — no range check exists on either path. -/
theorem similarity_out_of_range_counterexample :
    checkPlagiarism over150Provider [docA] true [0]
      = .ok [.online ⟨"a.txt", 150, [], []⟩] ∧
    ¬ ((150 : ℚ) ≤ 100) :=
  ⟨rfl, by decide⟩

/-- **C3 (amended)**: the similarity of a produced result equals the number
in the parsed provider response, passed through with no range enforcement
(online mode checks only that it is a number; pairwise mode assigns the raw
field without any validation). -/
theorem similarity_passed_through_unclamped :
    (∀ (docName : String) (parsed : Json) (chunks : List GroundingChunk)
       (r : OnlineComparisonResult),
       normalizeParsed docName parsed chunks = .ok r →
       getField parsed "similarity" = some (.num r.similarity)) ∧
    (∀ (P : ProviderModel) (d1 d2 : DocumentContent) (raw : String) (parsed : Json),
       P.pairResponse d1 d2 = .ok raw →
       parseJsonList (jsTrim raw.data) = some parsed →
       analyzePair P d1 d2 = .ok ⟨d1.name, d2.name, getField parsed "similarity",
         getField parsed "matched_sentences"⟩) := by
  constructor
  · intro docName parsed chunks r h
    unfold normalizeParsed at h
    split at h
    · next sim raw hsim hsent =>
      injection h with h'
      subst h'
      exact hsim
    · cases h
  · intro P d1 d2 raw parsed h1 h2
    unfold analyzePair
    rw [h1]
    dsimp only
    rw [h2]

/-- Witness: a parsed response with similarity `42` yields a result whose
similarity field is exactly that number. -/
theorem similarity_passed_through_unclamped_witness :
    getField (.obj [("similarity", Json.num 42), ("matched_sentences", Json.arr [])]) "similarity"
      = some (.num 42) :=
  similarity_passed_through_unclamped.1 "doc.txt"
    (.obj [("similarity", Json.num 42), ("matched_sentences", Json.arr [])]) []
    ⟨"doc.txt", 42, [], []⟩ rfl

/-! ### Extraction-regex characterization lemmas -/

theorem candAt_nil : candAt [] = none := rfl

theorem findCandidate_none_iff (cs : List Char) :
    findCandidate cs = none ↔ ∀ i, candAt (cs.drop i) = none := by
  induction cs with
  | nil =>
    constructor
    · intro _ i
      rw [List.drop_nil]
      exact candAt_nil
    · intro _
      rfl
  | cons c rest ih =>
    constructor
    · intro h i
      cases hc : candAt (c :: rest) with
      | some s =>
        simp only [findCandidate, hc] at h
        cases h
      | none =>
        simp only [findCandidate, hc] at h
        cases i with
        | zero => simpa using hc
        | succ k =>
          rw [List.drop_succ_cons]
          exact (ih.mp h) k
    · intro h
      have h0 := h 0
      rw [List.drop_zero] at h0
      simp only [findCandidate, h0]
      apply ih.mpr
      intro k
      have hk := h (k + 1)
      rwa [List.drop_succ_cons] at hk

theorem findCandidate_some_iff_least (cs : List Char) (s : List Char) :
    findCandidate cs = some s ↔
      ∃ i, candAt (cs.drop i) = some s ∧ ∀ k, k < i → candAt (cs.drop k) = none := by
  induction cs with
  | nil =>
    constructor
    · intro h
      cases h
    · rintro ⟨i, hi, _⟩
      rw [List.drop_nil, candAt_nil] at hi
      cases hi
  | cons c rest ih =>
    cases hc : candAt (c :: rest) with
    | some s0 =>
      constructor
      · intro h
        simp only [findCandidate, hc] at h
        injection h with h'
        subst h'
        exact ⟨0, by simpa using hc, fun k hk => by omega⟩
      · rintro ⟨i, hi, hmin⟩
        cases i with
        | zero =>
          rw [List.drop_zero] at hi
          rw [hc] at hi
          injection hi with hi'
          simp only [findCandidate, hc, hi']
        | succ k =>
          have h0 := hmin 0 (Nat.succ_pos k)
          rw [List.drop_zero, hc] at h0
          cases h0
    | none =>
      constructor
      · intro h
        simp only [findCandidate, hc] at h
        rcases ih.mp h with ⟨i, hi, hmin⟩
        refine ⟨i + 1, by simpa using hi, ?_⟩
        intro k hk
        cases k with
        | zero => simpa using hc
        | succ k2 =>
          rw [List.drop_succ_cons]
          exact hmin k2 (by omega)
      · rintro ⟨i, hi, hmin⟩
        cases i with
        | zero =>
          rw [List.drop_zero, hc] at hi
          cases hi
        | succ k =>
          simp only [findCandidate, hc]
          apply ih.mpr
          refine ⟨k, by simpa using hi, ?_⟩
          intro k2 hk2
          have := hmin (k2 + 1) (by omega)
          rwa [List.drop_succ_cons] at this

theorem lastIdxOf_eq_none (c : Char) : ∀ l : List Char, lastIdxOf c l = none → c ∉ l := by
  intro l
  induction l with
  | nil =>
    intro _ h
    cases h
  | cons a rest ih =>
    intro h hmem
    simp only [lastIdxOf] at h
    cases hr : lastIdxOf c rest with
    | some k =>
      rw [hr] at h
      cases h
    | none =>
      rw [hr] at h
      by_cases ha : a = c
      · rw [if_pos ha] at h
        cases h
      · rcases List.mem_cons.mp hmem with rfl | h2
        · exact ha rfl
        · exact ih hr h2

theorem lastIdxOf_spec (c : Char) : ∀ (l : List Char) (k : Nat), lastIdxOf c l = some k →
    l.get? k = some c ∧ ∀ m, k < m → l.get? m ≠ some c := by
  intro l
  induction l with
  | nil =>
    intro k h
    cases h
  | cons a rest ih =>
    intro k h
    simp only [lastIdxOf] at h
    cases hr : lastIdxOf c rest with
    | some k2 =>
      rw [hr] at h
      injection h with h'
      subst h'
      rcases ih k2 hr with ⟨h1, h2⟩
      refine ⟨by simpa using h1, ?_⟩
      intro m hm
      cases m with
      | zero => omega
      | succ m2 =>
        rw [List.get?_cons_succ]
        exact h2 m2 (by omega)
    | none =>
      rw [hr] at h
      by_cases ha : a = c
      · rw [if_pos ha] at h
        injection h with h'
        subst h'
        refine ⟨by simp [ha], ?_⟩
        intro m hm
        cases m with
        | zero => omega
        | succ m2 =>
          rw [List.get?_cons_succ]
          intro hc2
          exact lastIdxOf_eq_none c rest hr (List.get?_mem hc2)
      · rw [if_neg ha] at h
        cases h

theorem braceSpanAt_spec (a : Char) (rest : List Char) (s : List Char)
    (h : braceSpanAt (a :: rest) = some s) :
    a = lbrace ∧ ∃ k, rest.get? k = some rbrace ∧
      (∀ m, k < m → rest.get? m ≠ some rbrace) ∧ s = lbrace :: rest.take (k + 1) := by
  simp only [braceSpanAt] at h
  split at h
  · next ha =>
    cases hl : lastIdxOf rbrace rest with
    | none =>
      rw [hl] at h
      cases h
    | some k =>
      rw [hl] at h
      injection h with h'
      rcases lastIdxOf_spec rbrace rest k hl with ⟨h1, h2⟩
      exact ⟨ha, k, h1, h2, h'.symm⟩
  · cases h

theorem findSubstr_spec (pat : List Char) : ∀ (l : List Char) (q : Nat),
    findSubstr pat l = some q →
    pat.isPrefixOf (l.drop q) = true ∧ ∀ m, m < q → pat.isPrefixOf (l.drop m) = false := by
  intro l
  induction l with
  | nil =>
    intro q h
    simp only [findSubstr] at h
    split at h
    · next hp =>
      injection h with h'
      subst h'
      refine ⟨?_, fun m hm => by omega⟩
      have hpat : pat = [] := by simpa [List.isEmpty_iff] using hp
      subst hpat
      rfl
    · cases h
  | cons c rest ih =>
    intro q h
    simp only [findSubstr] at h
    split at h
    · next hp =>
      injection h with h'
      subst h'
      exact ⟨hp, fun m hm => by omega⟩
    · next hp =>
      cases hf : findSubstr pat rest with
      | none =>
        rw [hf] at h
        cases h
      | some q2 =>
        rw [hf] at h
        simp only [Option.map_some'] at h
        injection h with h'
        subst h'
        rcases ih q2 hf with ⟨h1, h2⟩
        refine ⟨by simpa using h1, ?_⟩
        intro m hm
        cases m with
        | zero =>
          rw [List.drop_zero, ← Bool.not_eq_true]
          exact hp
        | succ m2 =>
          rw [List.drop_succ_cons]
          exact h2 m2 (by omega)

theorem candAt_fence (cs : List Char) (s : List Char) (h : fenceContentAt cs = some s) :
    candAt cs = some s := by
  unfold candAt
  rw [h]

theorem candAt_brace (cs : List Char) (h : fenceContentAt cs = none) :
    candAt cs = braceSpanAt cs := by
  unfold candAt
  rw [h]

/-! ### C1: JSON extraction from response text (corrected) -/

/-- Response text with a standalone object before a fenced JSON block. -/
def mixedResponseText : String := "\x7b\"a\":1\x7d ```json \x7b\"b\":2\x7d ```"

/-- **C1 counterexample**: though a fenced ```` ```json ```` block holding the
valid object is present (at offset 8) and its contents parse, the extraction
regex matches the earlier standalone `\x7b` and greedily spans to the *last*
`\x7d`, so the call fails with the malformed-JSON error instead of returning
the fenced object. -/
theorem fenced_block_not_preferred_counterexample :
    fenceContentAt (mixedResponseText.data.drop 8) = some ("\x7b\"b\":2\x7d".data) ∧
    (parseJsonList (stripTrailingCommas ("\x7b\"b\":2\x7d".data))).isSome = true ∧
    extractJsonFromText mixedResponseText = .error .malformedJson :=
  ⟨rfl, rfl, rfl⟩

/-- **C1 (amended)**: extraction scans for the leftmost position where either
a complete fenced ```` ```json ```` block or a `\x7b` with a later `\x7d`
begins, preferring the fence only at that position (so a fence is *not*
preferred over a standalone object that starts earlier); the brace
alternative captures from its `\x7b` to the **last** `\x7d` of the remaining
text, not the first top-level object.  If no position matches, the call
fails with the non-JSON-response error; so does a fence whose contents are
empty (the `match[1] || match[2]` fallback).  Otherwise trailing commas
before `\x7d` or `]` are stripped and the candidate is parsed, a parse
failure giving the distinct malformed-JSON error. -/
theorem extractJsonFromText_characterization (text : String) :
    ((∀ i, i ≤ text.data.length → candAt (text.data.drop i) = none) →
       extractJsonFromText text = .error .nonJsonResponse) ∧
    (∀ i s, candAt (text.data.drop i) = some s →
       (∀ k, k < i → candAt (text.data.drop k) = none) → s ≠ [] →
       ((∀ v, parseJsonList (stripTrailingCommas s) = some v →
           extractJsonFromText text = .ok v) ∧
        (parseJsonList (stripTrailingCommas s) = none →
           extractJsonFromText text = .error .malformedJson))) ∧
    (∀ i, candAt (text.data.drop i) = some [] →
       (∀ k, k < i → candAt (text.data.drop k) = none) →
       extractJsonFromText text = .error .nonJsonResponse) ∧
    (∀ cs s, fenceContentAt cs = some s → candAt cs = some s) ∧
    (∀ cs, fenceContentAt cs = none → candAt cs = braceSpanAt cs) ∧
    (∀ (a : Char) (rest s : List Char), braceSpanAt (a :: rest) = some s →
       a = lbrace ∧ ∃ k, rest.get? k = some rbrace ∧
         (∀ m, k < m → rest.get? m ≠ some rbrace) ∧ s = lbrace :: rest.take (k + 1)) := by
  refine ⟨?_, ?_, ?_, candAt_fence, candAt_brace, braceSpanAt_spec⟩
  · intro h
    have hnone : findCandidate text.data = none := by
      rw [findCandidate_none_iff]
      intro i
      by_cases hi : i ≤ text.data.length
      · exact h i hi
      · rw [List.drop_eq_nil_of_le (by omega)]
        exact candAt_nil
    unfold extractJsonFromText
    rw [hnone]
  · intro i s hi hmin hne
    have hfc : findCandidate text.data = some s :=
      (findCandidate_some_iff_least _ _).mpr ⟨i, hi, hmin⟩
    constructor
    · intro v hv
      unfold extractJsonFromText
      rw [hfc]
      dsimp only
      rw [if_neg hne, hv]
    · intro hv
      unfold extractJsonFromText
      rw [hfc]
      dsimp only
      rw [if_neg hne, hv]
  · intro i hi hmin
    have hfc : findCandidate text.data = some [] :=
      (findCandidate_some_iff_least _ _).mpr ⟨i, hi, hmin⟩
    unfold extractJsonFromText
    rw [hfc]
    rfl

/-- Witness: a brace-less text gives the non-JSON error, a trailing-comma
object repairs and parses, a brace span with invalid contents gives the
distinct malformed-JSON error, and an empty fence falls back to the non-JSON
error. -/
theorem extractJsonFromText_characterization_witness :
    extractJsonFromText "no json here" = .error .nonJsonResponse ∧
    extractJsonFromText "x\x7b\"a\": 1,\x7d" = .ok (.obj [("a", .num 1)]) ∧
    extractJsonFromText "y\x7b\"b\": \x7d" = .error .malformedJson ∧
    extractJsonFromText "```json```" = .error .nonJsonResponse := by
  refine ⟨?_, ?_, ?_, ?_⟩
  · exact (extractJsonFromText_characterization "no json here").1 (by decide)
  · exact ((extractJsonFromText_characterization "x\x7b\"a\": 1,\x7d").2.1 1
      ("\x7b\"a\": 1,\x7d".data) rfl (by decide) (by decide)).1 (.obj [("a", .num 1)]) rfl
  · exact ((extractJsonFromText_characterization "y\x7b\"b\": \x7d").2.1 1
      ("\x7b\"b\": \x7d".data) rfl (by decide) (by decide)).2 rfl
  · exact (extractJsonFromText_characterization "```json```").2.2.1 0 rfl (by decide)
